import Mathlib

/-!
Verification of the BGZF codec and random-access reader/writer in
`Bio/bgzf.py` (Biopython).  The Python module is shallowly embedded:
byte strings become `List Nat`, file handles become a pair of the
underlying byte sequence and a cursor, and Python exceptions become an
explicit error type returned through `Except`.  The external `zlib`
library (raw-DEFLATE compression plus CRC-32) is not part of the
repository; it is represented by a record of functions `Zlib`, and the
properties a real codec enjoys (decompression inverts compression, the
CRC of the empty string is zero, ...) appear as explicit hypotheses of
the theorems that need them.
-/

/-- Python exceptions raised by the module (plus `outOfFuel`, an artifact
of modelling the module's unbounded loops/recursion with explicit fuel;
every theorem below supplies enough fuel for it never to occur). -/
inductive PyErr where
  | stopIteration
  | valueError
  | assertionError
  | structError
  | attributeError
  | typeError
  | notImplementedError
  | keyError
  | outOfFuel
deriving DecidableEq, Repr

/-- A Python byte string: a list of byte values. -/
abbrev Bytes := List Nat

/-- A Python binary file object: the file contents, the current cursor,
and the mode string it was opened with (read by `BgzfReader.__init__`
via `handle.mode`). -/
structure Handle where
  data : Bytes
  pos : Nat
  fmode : String := "rb"
deriving DecidableEq, Repr

/-- `handle.read(n)` for `n ≥ 0`: returns up to `n` bytes from the cursor
and advances the cursor by the number of bytes actually returned. -/
def Handle.read (h : Handle) (n : Nat) : Bytes × Handle :=
  let b := (h.data.drop h.pos).take n
  (b, { h with pos := h.pos + b.length })

/-- `handle.read(n)` for a possibly negative Python argument: a negative
count reads to end of file. -/
def Handle.readInt (h : Handle) (n : Int) : Bytes × Handle :=
  if n < 0 then
    let b := h.data.drop h.pos
    (b, { h with pos := h.pos + b.length })
  else h.read n.toNat

/-- `handle.tell()`. -/
def Handle.tell (h : Handle) : Nat := h.pos

/-- `handle.seek(p)` (absolute). -/
def Handle.seek (h : Handle) (p : Nat) : Handle := { h with pos := p }

/-- `struct.unpack("<H", b)[0]`: requires exactly two bytes. -/
def unpack16 : Bytes → Except PyErr Nat
  | [a, b] => .ok (a + 256 * b)
  | _ => .error .structError

/-- `struct.unpack("<I", b)[0]`: requires exactly four bytes. -/
def unpack32 : Bytes → Except PyErr Nat
  | [a, b, c, d] => .ok (a + 256 * b + 65536 * c + 16777216 * d)
  | _ => .error .structError

/-- The two little-endian bytes of a 16-bit value. -/
def u16leBytes (n : Nat) : Bytes := [n % 256, n / 256 % 256]

/-- The four little-endian bytes of a 32-bit value. -/
def u32leBytes (n : Nat) : Bytes :=
  [n % 256, n / 256 % 256, n / 65536 % 256, n / 16777216 % 256]

/-- `struct.pack("<H", n)`: raises `struct.error` when out of range. -/
def u16lePack (n : Nat) : Except PyErr Bytes :=
  if n < 65536 then .ok (u16leBytes n) else .error .structError

/-- `struct.pack("<I", n)`: raises `struct.error` when out of range. -/
def u32lePack (n : Nat) : Except PyErr Bytes :=
  if n < 4294967296 then .ok (u32leBytes n) else .error .structError

/-- The external `zlib` dependency: raw-DEFLATE compression at a given
level, raw-DEFLATE decompression, and CRC-32.  `crc32` is the unsigned
32-bit value; the source's Python-2 signed/unsigned branches
(`struct.pack("<i", crc)` vs `struct.pack("<I", crc)`, and the mask
`& 0xffffffff`) both serialize exactly the little-endian bytes of
`crc32 data % 2^32`, which is how the model renders them below. -/
structure Zlib where
  compress : Nat → Bytes → Bytes
  decompress : Bytes → Bytes
  crc32 : Bytes → Nat

/-- `make_virtual_offset(block_start_offset, within_block_offset)`
(bgzf.py lines 223-271).  Python `ValueError` models the spec's
`RangeError`.  The checks appear in the source's order: the within-block
offset first, then the block-start offset. -/
def make_virtual_offset (block_start_offset within_block_offset : Int) :
    Except PyErr Int :=
  if within_block_offset < 0 ∨ 65536 ≤ within_block_offset then
    .error .valueError
  else if block_start_offset < 0 ∨ 281474976710656 ≤ block_start_offset then
    .error .valueError
  else
    .ok ((block_start_offset.toNat <<< 16 ||| within_block_offset.toNat : Nat) : Int)

/-- `split_virtual_offset(virtual_offset)` (bgzf.py lines 273-283):
`start = v >> 16` and the within-block part is `v ^ (start << 16)`. -/
def split_virtual_offset (virtual_offset : Nat) : Nat × Nat :=
  let start := virtual_offset >>> 16
  (start, virtual_offset ^^^ (start <<< 16))

/-- Bit-level bridge: packing a 48-bit block offset with a 16-bit
within-block offset by shift-and-or is plain positional arithmetic. -/
theorem shl16_or_eq (c u : Nat) (hu : u < 65536) :
    c <<< 16 ||| u = 65536 * c + u := by
  have h := Nat.mul_add_lt_is_or (a := c) (i := 16) (show u < 2 ^ 16 by omega)
  rw [Nat.shiftLeft_eq, Nat.mul_comm c (2 ^ 16), ← h]

/-- Bit-level bridge for `split_virtual_offset`: the high part is
division by `2^16`. -/
theorem shr16_eq (v : Nat) : v >>> 16 = v / 65536 := by
  rw [Nat.shiftRight_eq_div_pow]

/-- Bit-level bridge for `split_virtual_offset`: xoring away the shifted
high part leaves the low 16 bits. -/
theorem xor_high_eq_mod (v : Nat) :
    v ^^^ ((v >>> 16) <<< 16) = v % 65536 := by
  apply Nat.eq_of_testBit_eq
  intro i
  have h65536 : (65536 : Nat) = 2 ^ 16 := by norm_num
  rw [Nat.testBit_xor, Nat.testBit_shiftLeft, h65536, Nat.testBit_mod_two_pow,
    Nat.testBit_shiftRight]
  by_cases hi : 16 ≤ i
  · have h16 : 16 + (i - 16) = i := by omega
    simp [hi, h16, show ¬ i < 16 by omega]
  · simp [hi, show i < 16 by omega]

/-- Evaluation of `make_virtual_offset` inside its domain. -/
theorem make_virtual_offset_eval (c u : Nat) (hc : c < 281474976710656)
    (hu : u < 65536) :
    make_virtual_offset (c : Int) (u : Int) = .ok ((65536 * c + u : Nat) : Int) := by
  unfold make_virtual_offset
  rw [if_neg (by omega), if_neg (by omega)]
  rw [Int.toNat_natCast, Int.toNat_natCast, shl16_or_eq c u hu]

/-- Components of `split_virtual_offset`. -/
theorem split_virtual_offset_eval (v : Nat) :
    split_virtual_offset v = (v / 65536, v % 65536) := by
  show (v >>> 16, v ^^^ ((v >>> 16) <<< 16)) = (v / 65536, v % 65536)
  rw [xor_high_eq_mod, shr16_eq]

/-- C5: for `c < 2^48` and `u < 2^16`, `split (make c u) = (c, u)`; for
every 64-bit value `v`, `make (split v) = v`; and the packed value is
strictly monotone in the block-start offset and, at equal block-start
offset, in the within-block offset. -/
theorem C5_virtual_offset_laws :
    (∀ c u : Nat, c < 281474976710656 → u < 65536 →
      ∃ v : Nat, make_virtual_offset (c : Int) (u : Int) = .ok (v : Int) ∧
        split_virtual_offset v = (c, u)) ∧
    (∀ v : Nat, v < 18446744073709551616 →
      make_virtual_offset ((split_virtual_offset v).1 : Int)
        ((split_virtual_offset v).2 : Int) = .ok (v : Int)) ∧
    (∀ c1 u1 c2 u2 v1 v2 : Nat,
      make_virtual_offset (c1 : Int) (u1 : Int) = .ok (v1 : Int) →
      make_virtual_offset (c2 : Int) (u2 : Int) = .ok (v2 : Int) →
      c1 < c2 → v1 < v2) ∧
    (∀ c u1 u2 v1 v2 : Nat,
      make_virtual_offset (c : Int) (u1 : Int) = .ok (v1 : Int) →
      make_virtual_offset (c : Int) (u2 : Int) = .ok (v2 : Int) →
      u1 < u2 → v1 < v2) := by
  have hdom : ∀ c u v : Nat,
      make_virtual_offset (c : Int) (u : Int) = .ok (v : Int) →
      c < 281474976710656 ∧ u < 65536 ∧ v = 65536 * c + u := by
    intro c u v h
    unfold make_virtual_offset at h
    by_cases hu : (u : Int) < 0 ∨ 65536 ≤ (u : Int)
    · rw [if_pos hu] at h; exact absurd h (by simp)
    · rw [if_neg hu] at h
      by_cases hc : (c : Int) < 0 ∨ 281474976710656 ≤ (c : Int)
      · rw [if_pos hc] at h; exact absurd h (by simp)
      · rw [if_neg hc] at h
        have hu' : u < 65536 := by omega
        have hc' : c < 281474976710656 := by omega
        refine ⟨hc', hu', ?_⟩
        rw [Int.toNat_natCast, Int.toNat_natCast, shl16_or_eq c u hu'] at h
        have := Except.ok.inj h
        omega
  refine ⟨?_, ?_, ?_, ?_⟩
  · intro c u hc hu
    refine ⟨65536 * c + u, make_virtual_offset_eval c u hc hu, ?_⟩
    rw [split_virtual_offset_eval]
    simp only [Prod.mk.injEq]
    constructor <;> omega
  · intro v hv
    rw [split_virtual_offset_eval]
    have h1 : v / 65536 < 281474976710656 := by omega
    have h2 : v % 65536 < 65536 := by omega
    rw [make_virtual_offset_eval _ _ h1 h2]
    congr 1
    omega
  · intro c1 u1 c2 u2 v1 v2 h1 h2 hlt
    obtain ⟨_, hu1, hv1⟩ := hdom _ _ _ h1
    obtain ⟨_, _, hv2⟩ := hdom _ _ _ h2
    omega
  · intro c u1 u2 v1 v2 h1 h2 hlt
    obtain ⟨_, _, hv1⟩ := hdom _ _ _ h1
    obtain ⟨_, _, hv2⟩ := hdom _ _ _ h2
    omega

/-- Witness for C5 at concrete inputs. -/
theorem C5_virtual_offset_laws_witness :
    (∃ v : Nat, make_virtual_offset (100000 : Int) (10 : Int) = .ok (v : Int) ∧
      split_virtual_offset v = (100000, 10)) ∧
    make_virtual_offset ((split_virtual_offset 6553600010).1 : Int)
      ((split_virtual_offset 6553600010).2 : Int) = .ok ((6553600010 : Nat) : Int) := by
  refine ⟨C5_virtual_offset_laws.1 100000 10 (by norm_num) (by norm_num), ?_⟩
  exact C5_virtual_offset_laws.2.1 6553600010 (by norm_num)

/-- C6: `make_virtual_offset` raises `ValueError` (the spec's
`RangeError`) exactly on out-of-domain components, and otherwise returns
`(c << 16) | u`, i.e. `65536 * c + u`; in particular `make(0, 65536)`
and `make(2^48, 0)` raise while `make(100000, 10) = 6553600010`. -/
theorem C6_make_virtual_offset_range :
    (∀ c u : Int,
      ((c < 0 ∨ 281474976710656 ≤ c ∨ u < 0 ∨ 65536 ≤ u) →
        make_virtual_offset c u = .error .valueError) ∧
      (¬(c < 0 ∨ 281474976710656 ≤ c ∨ u < 0 ∨ 65536 ≤ u) →
        make_virtual_offset c u = .ok (65536 * c + u))) ∧
    make_virtual_offset 0 65536 = .error .valueError ∧
    make_virtual_offset 281474976710656 0 = .error .valueError ∧
    make_virtual_offset 100000 10 = .ok 6553600010 := by
  have main : ∀ c u : Int,
      ((c < 0 ∨ 281474976710656 ≤ c ∨ u < 0 ∨ 65536 ≤ u) →
        make_virtual_offset c u = .error .valueError) ∧
      (¬(c < 0 ∨ 281474976710656 ≤ c ∨ u < 0 ∨ 65536 ≤ u) →
        make_virtual_offset c u = .ok (65536 * c + u)) := by
    intro c u
    constructor
    · intro h
      unfold make_virtual_offset
      by_cases hu : u < 0 ∨ 65536 ≤ u
      · rw [if_pos hu]
      · rw [if_neg hu, if_pos (by omega)]
    · intro h
      push_neg at h
      obtain ⟨h1, h2, h3, h4⟩ := h
      have hc : c = ((c.toNat : Nat) : Int) := by omega
      have hu : u = ((u.toNat : Nat) : Int) := by omega
      rw [hc, hu, make_virtual_offset_eval c.toNat u.toNat (by omega) (by omega)]
      congr 1
  refine ⟨main, ?_, ?_, ?_⟩
  · exact (main 0 65536).1 (by norm_num)
  · exact (main 281474976710656 0).1 (by norm_num)
  · have h := (main 100000 10).2 (by norm_num)
    norm_num at h
    exact h

/-- Witness for C6 at a concrete in-domain input. -/
theorem C6_make_virtual_offset_range_witness :
    make_virtual_offset 5 7 = .ok 327687 := by
  have h := (C6_make_virtual_offset_range.1 5 7).2 (by norm_num)
  norm_num at h
  exact h

/-- Gzip magic with FEXTRA, `_bgzf_magic` (bgzf.py line 204). -/
def bgzfMagic : Bytes := [31, 139, 8, 4]

/-- The two-byte subfield id `"BC"`, `_bytes_BC` (bgzf.py line 209). -/
def bytesBC : Bytes := [66, 67]

/-- The fixed 16-byte block header `_bgzf_header` (bgzf.py lines
205-206): gzip magic, mtime 0, xfl 0, os 255, xlen 6, subfield id `BC`,
subfield length 2. -/
def bgzfHeader : Bytes :=
  [31, 139, 8, 4, 0, 0, 0, 0, 0, 255, 6, 0, 66, 67, 2, 0]

/-- The fixed 28-byte EOF sentinel `_bgzf_eof` (bgzf.py lines 207-208). -/
def bgzfEof : Bytes :=
  [31, 139, 8, 4, 0, 0, 0, 0, 0, 255, 6, 0, 66, 67, 2, 0,
   27, 0, 3, 0, 0, 0, 0, 0, 0, 0, 0, 0]

/-- The `while x_len < extra_len` subfield loop of `_load_bgzf_block`
(bgzf.py lines 374-385).  Each iteration advances `x_len` by at least 4,
so the loop runs at most `extra_len` times; the explicit fuel (always
called with `extra_len + 1`) therefore never runs out. -/
def parseExtra : Nat → Handle → Nat → Nat → Option Nat →
    Except PyErr (Option Nat × Nat × Handle)
  | 0, _, _, _, _ => .error .outOfFuel
  | fuel + 1, h, xLen, extraLen, blockSize =>
    if xLen < extraLen then
      let rId := h.read 2
      let rLen := rId.2.read 2
      match unpack16 rLen.1 with
      | .error e => .error e
      | .ok subfieldLen =>
        let rData := rLen.2.read subfieldLen
        if rId.1 = bytesBC then
          if subfieldLen = 2 then
            if blockSize = none then
              match unpack16 rData.1 with
              | .error e => .error e
              | .ok bs =>
                parseExtra fuel rData.2 (xLen + subfieldLen + 4) extraLen (some (bs + 1))
            else .error .assertionError
          else .error .assertionError
        else parseExtra fuel rData.2 (xLen + subfieldLen + 4) extraLen blockSize
    else .ok (blockSize, xLen, h)

/-- `_load_bgzf_block(handle)` (bgzf.py lines 359-406): parse one BGZF
block at the handle's cursor and return `(block_size, data)` plus the
advanced handle.  The Python `text_mode` flag only applies an identity
byte-to-text conversion in this Python-2 module and is therefore not a
parameter of the model.  Python's assertion failures are
`assertionError`, a short `struct.unpack` is `structError`, a bad magic
is `valueError`, and a clean end of stream is `stopIteration`. -/
def loadBgzfBlock (Z : Zlib) (h : Handle) : Except PyErr (Nat × Bytes × Handle) :=
  let rMagic := h.read 4
  if rMagic.1 = [] then .error .stopIteration
  else if rMagic.1 ≠ bgzfMagic then .error .valueError
  else
    let rModTime := rMagic.2.read 4
    let rXfl := rModTime.2.read 1
    let rOs := rXfl.2.read 1
    let rXlen := rOs.2.read 2
    match unpack16 rXlen.1 with
    | .error e => .error e
    | .ok extraLen =>
      match parseExtra (extraLen + 1) rXlen.2 0 extraLen none with
      | .error e => .error e
      | .ok (blockSizeOpt, xLen, h2) =>
        if xLen ≠ extraLen then .error .assertionError
        else match blockSizeOpt with
        | none => .error .assertionError
        | some blockSize =>
          let deflateSize : Int := (blockSize : Int) - 1 - (extraLen : Int) - 19
          let rComp := h2.readInt deflateSize
          let data := Z.decompress rComp.1
          let rCrc := rComp.2.read 4
          let rIsize := rCrc.2.read 4
          match unpack32 rIsize.1 with
          | .error e => .error e
          | .ok expectedSize =>
            if expectedSize ≠ data.length then .error .assertionError
            else if rCrc.1 ≠ u32leBytes (Z.crc32 data % 4294967296) then
              .error .assertionError
            else .ok (blockSize, data, rIsize.2)

/-- The byte string emitted by `BgzfWriter._write_block` for one chunk:
fixed header, `BSIZE - 1` as u16, deflate payload, CRC-32, ISIZE. -/
def encBlock (Z : Zlib) (lvl : Nat) (block : Bytes) : Bytes :=
  bgzfHeader ++ u16leBytes ((Z.compress lvl block).length + 25) ++
    Z.compress lvl block ++ u32leBytes (Z.crc32 block % 4294967296) ++
    u32leBytes block.length

/-- `BgzfWriter._write_block(block)` (bgzf.py lines 668-699).  The two
leading asserts and the `struct.pack` range checks are modelled in
source order; on success the emitted bytes are returned (the Python
writes them to the sink with a single terminal `handle.write`, so a
failing call emits nothing).  The source's first signed/unsigned CRC
computation (lines 683-686) is dead code, overwritten on line 688 by
`struct.pack("<I", zlib.crc32(block) & 0xffffffff)`, which is what the
model emits. -/
def writeBlock (Z : Zlib) (lvl : Nat) (block : Bytes) : Except PyErr Bytes :=
  if 65536 < block.length then .error .assertionError
  else
    let compressed := Z.compress lvl block
    if 65536 ≤ compressed.length then .error .assertionError
    else match u16lePack (compressed.length + 25) with
    | .error e => .error e
    | .ok bsize =>
      match u32lePack (Z.crc32 block % 4294967296) with
      | .error e => .error e
      | .ok crc =>
        match u32lePack block.length with
        | .error e => .error e
        | .ok uncompressedLength =>
          .ok (bgzfHeader ++ bsize ++ compressed ++ crc ++ uncompressedLength)

/-- A read of a fixed-length prefix of the remaining bytes, together
with the suffix fact needed to chain further reads. -/
theorem Handle.read_fixed (D : Bytes) (pos n : Nat) (md : String) {xs ys : Bytes}
    (h : D.drop pos = xs ++ ys) (hn : xs.length = n) :
    Handle.read ⟨D, pos, md⟩ n = (xs, ⟨D, pos + n, md⟩) ∧ D.drop (pos + n) = ys := by
  constructor
  · show ((D.drop pos).take n, (⟨D, pos + ((D.drop pos).take n).length, md⟩ : Handle)) = _
    rw [h, List.take_left' hn]
    rw [hn]
  · have : D.drop (pos + n) = (D.drop pos).drop n := by
      rw [List.drop_drop]
    rw [this, h, List.drop_left' hn]

/-- Evaluation of the subfield loop on the single `BC` subfield that a
well-formed block contains: `xlen = 6`, and `BSIZE` is the `BC` payload
plus one. -/
theorem parseExtra_bc (D : Bytes) (p : Nat) (md : String) (b0 b1 : Nat) (tail : Bytes)
    (hd : D.drop p = [66, 67] ++ ([2, 0] ++ ([b0, b1] ++ tail))) :
    parseExtra (6 + 1) ⟨D, p, md⟩ 0 6 none =
      .ok (some (b0 + 256 * b1 + 1), 6, ⟨D, p + 2 + 2 + 2, md⟩) ∧
    D.drop (p + 2 + 2 + 2) = tail := by
  obtain ⟨e1, d1⟩ := Handle.read_fixed D p 2 md hd rfl
  obtain ⟨e2, d2⟩ := Handle.read_fixed D (p + 2) 2 md d1 rfl
  obtain ⟨e3, d3⟩ := Handle.read_fixed D (p + 2 + 2) 2 md d2 rfl
  refine ⟨?_, d3⟩
  simp [parseExtra, e1, e2, e3, unpack16, bytesBC]

theorem unpack32_u32leBytes (n : Nat) (h : n < 4294967296) :
    unpack32 (u32leBytes n) = .ok n := by
  simp only [unpack32, u32leBytes]
  congr 1
  omega

set_option maxHeartbeats 4000000 in
theorem loadBgzfBlock_frame (Z : Zlib) (D : Bytes) (pos : Nat) (md : String)
    (C data rest : Bytes)
    (hD : D.drop pos = bgzfHeader ++ u16leBytes (C.length + 25) ++ C ++
      u32leBytes (Z.crc32 data % 4294967296) ++ u32leBytes data.length ++ rest)
    (hC : C.length ≤ 65510) (hdata : Z.decompress C = data)
    (hdlen : data.length < 4294967296) :
    loadBgzfBlock Z ⟨D, pos, md⟩ =
      .ok (C.length + 26, data, ⟨D, pos + (C.length + 26), md⟩) := by
  have h0 : D.drop pos = [31, 139, 8, 4] ++ ([0, 0, 0, 0] ++ ([0] ++ ([255] ++
      ([6, 0] ++ ([66, 67] ++ ([2, 0] ++ ([(C.length + 25) % 256, (C.length + 25) / 256 % 256] ++
      (C ++ (u32leBytes (Z.crc32 data % 4294967296) ++
      (u32leBytes data.length ++ rest)))))))))) := by
    rw [hD]
    simp [bgzfHeader, u16leBytes, List.append_assoc]
  obtain ⟨e1, d1⟩ := Handle.read_fixed D pos 4 md h0 rfl
  obtain ⟨e2, d2⟩ := Handle.read_fixed D (pos + 4) 4 md d1 rfl
  obtain ⟨e3, d3⟩ := Handle.read_fixed D (pos + 4 + 4) 1 md d2 rfl
  obtain ⟨e4, d4⟩ := Handle.read_fixed D (pos + 4 + 4 + 1) 1 md d3 rfl
  obtain ⟨e5, d5⟩ := Handle.read_fixed D (pos + 4 + 4 + 1 + 1) 2 md d4 rfl
  obtain ⟨e6, d6⟩ := parseExtra_bc D (pos + 4 + 4 + 1 + 1 + 2) md
    ((C.length + 25) % 256) ((C.length + 25) / 256 % 256) _ d5
  obtain ⟨e9, d9⟩ := Handle.read_fixed D (pos + 4 + 4 + 1 + 1 + 2 + 2 + 2 + 2)
    C.length md d6 rfl
  obtain ⟨e10, d10⟩ := Handle.read_fixed D (pos + 4 + 4 + 1 + 1 + 2 + 2 + 2 + 2 + C.length)
    4 md d9 (by simp [u32leBytes])
  obtain ⟨e11, d11⟩ := Handle.read_fixed D
    (pos + 4 + 4 + 1 + 1 + 2 + 2 + 2 + 2 + C.length + 4) 4 md d10 (by simp [u32leBytes])
  have hbs : (C.length + 25) % 256 + 256 * ((C.length + 25) / 256 % 256) + 1 =
      C.length + 26 := by omega
  have c1 : (([31, 139, 8, 4] : Bytes) = []) = False := by simp
  have c2 : ((¬ ([31, 139, 8, 4] : Bytes) = bgzfMagic)) = False := by simp [bgzfMagic]
  have u1 : unpack16 [6, 0] = .ok 6 := rfl
  unfold loadBgzfBlock
  simp only [e1, e2, e3, e4, e5, u1, c1, c2]
  simp only [if_false, e6, hbs]
  have hri : Handle.readInt ⟨D, pos + 4 + 4 + 1 + 1 + 2 + 2 + 2 + 2, md⟩
      (((C.length + 26 : Nat) : Int) - 1 - ((6 : Nat) : Int) - 19) =
      (C, ⟨D, pos + 4 + 4 + 1 + 1 + 2 + 2 + 2 + 2 + C.length, md⟩) := by
    unfold Handle.readInt
    rw [if_neg (by push_cast; omega)]
    have ht : (((C.length + 26 : Nat) : Int) - 1 - ((6 : Nat) : Int) - 19).toNat =
        C.length := by
      push_cast; omega
    rw [ht, e9]
  have u2 : unpack32 (u32leBytes data.length) = .ok data.length :=
    unpack32_u32leBytes _ hdlen
  have c3 : (((6 : Nat) ≠ 6)) = False := by simp
  have c4 : ((data.length ≠ data.length)) = False := by simp
  have c5 : ((u32leBytes (Z.crc32 data % 4294967296) ≠
      u32leBytes (Z.crc32 data % 4294967296))) = False := by simp
  have hpos : pos + 4 + 4 + 1 + 1 + 2 + 2 + 2 + 2 + C.length + 4 + 4 =
      pos + (C.length + 26) := by omega
  simp only [hri, hdata, e10, e11, u2, c3, c4, c5, if_false, hpos]

/-- `BgzfWriter` state: the bytes written to the sink so far, the pending
uncompressed buffer, and the compression level (`__init__`,
bgzf.py lines 651-666). -/
structure BgzfWriter where
  out : Bytes
  buffer : Bytes
  compresslevel : Nat
deriving DecidableEq, Repr

/-- The `while len(self._buffer) >= 65536` drain loop of
`BgzfWriter.write` (bgzf.py lines 713-715): emit the first 65536 bytes
as one block and continue.  Fuel `buffer.length + 1` at the call site is
always enough, since each iteration removes 65536 bytes. -/
def writeLoop (Z : Zlib) (lvl : Nat) : Nat → Bytes → Bytes →
    Except PyErr (Bytes × Bytes)
  | 0, _, _ => .error .outOfFuel
  | fuel + 1, out, buffer =>
    if 65536 ≤ buffer.length then
      match writeBlock Z lvl (buffer.take 65536) with
      | .error e => .error e
      | .ok b => writeLoop Z lvl fuel (out ++ b) (buffer.drop 65536)
    else .ok (out, buffer)

/-- `BgzfWriter.write(data)` (bgzf.py lines 701-715): append to the
buffer; once it reaches 65536 bytes, drain it in 65536-byte blocks. -/
def BgzfWriter.write (Z : Zlib) (w : BgzfWriter) (data : Bytes) :
    Except PyErr BgzfWriter :=
  if w.buffer.length + data.length < 65536 then
    .ok { w with buffer := w.buffer ++ data }
  else
    match writeLoop Z w.compresslevel ((w.buffer ++ data).length + 1) w.out
        (w.buffer ++ data) with
    | .error e => .error e
    | .ok (out, buffer) => .ok { w with out := out, buffer := buffer }

/-- The `while len(self._buffer) >= 65536` loop of `BgzfWriter.flush`
(bgzf.py lines 718-720), which slices at 65535 (not 65536 — the source's
acknowledged oddity).  Unreachable through `write`/`close`, which never
leave 65536 or more bytes buffered. -/
def flushLoop (Z : Zlib) (lvl : Nat) : Nat → Bytes → Bytes →
    Except PyErr (Bytes × Bytes)
  | 0, _, _ => .error .outOfFuel
  | fuel + 1, out, buffer =>
    if 65536 ≤ buffer.length then
      match writeBlock Z lvl (buffer.take 65535) with
      | .error e => .error e
      | .ok b => flushLoop Z lvl fuel (out ++ b) (buffer.drop 65535)
    else .ok (out, buffer)

/-- `BgzfWriter.flush()` (bgzf.py lines 717-723): drain the loop, then
emit one final block with whatever remains (possibly empty) and clear
the buffer.  The sink-level `handle.flush()` is a no-op in the model. -/
def BgzfWriter.flush (Z : Zlib) (w : BgzfWriter) : Except PyErr BgzfWriter :=
  match flushLoop Z w.compresslevel (w.buffer.length + 1) w.out w.buffer with
  | .error e => .error e
  | .ok (out, buffer) =>
    match writeBlock Z w.compresslevel buffer with
    | .error e => .error e
    | .ok b => .ok { w with out := out ++ b, buffer := [] }

/-- `BgzfWriter.close()` (bgzf.py lines 725-734): flush if the buffer is
non-empty, then write the fixed 28-byte EOF block.  The sink-level
flush/close are no-ops in the model. -/
def BgzfWriter.close (Z : Zlib) (w : BgzfWriter) : Except PyErr BgzfWriter :=
  match (if w.buffer ≠ [] then BgzfWriter.flush Z w else .ok w) with
  | .error e => .error e
  | .ok w2 => .ok { w2 with out := w2.out ++ bgzfEof }

/-- Feed one byte string to a fresh writer and close: the sink contents. -/
def writerRun (Z : Zlib) (lvl : Nat) (B : Bytes) : Except PyErr Bytes :=
  match BgzfWriter.write Z ⟨[], [], lvl⟩ B with
  | .error e => .error e
  | .ok w1 =>
    match BgzfWriter.close Z w1 with
    | .error e => .error e
    | .ok w2 => .ok w2.out

/-- The full 65536-byte slices the writer's drain loop emits from a
buffer. -/
def writerFull (B : Bytes) : List Bytes :=
  if 65536 ≤ B.length then B.take 65536 :: writerFull (B.drop 65536)
  else []
termination_by B.length
decreasing_by simp [List.length_drop]; omega

/-- What remains in the buffer after the writer's drain loop. -/
def writerRem (B : Bytes) : Bytes :=
  if 65536 ≤ B.length then writerRem (B.drop 65536)
  else B
termination_by B.length
decreasing_by simp [List.length_drop]; omega

/-- The sequence of uncompressed chunks a Writer fed `B` once and closed
emits as blocks: the full 65536-byte slices, then the non-empty
remainder if any. -/
def writerChunks (B : Bytes) : List Bytes :=
  writerFull B ++ (if writerRem B = [] then [] else [writerRem B])

/-- `decodeAll Z h fuel`: repeatedly apply the block decoder
(`_load_bgzf_block`) from the handle's position, as `BgzfBlocks` does
(bgzf.py lines 349-356), collecting `(block_size, data)` pairs until
clean end of stream. -/
def decodeAll (Z : Zlib) : Nat → Handle → List (Nat × Bytes) × Except PyErr Unit
  | 0, _ => ([], .error .outOfFuel)
  | fuel + 1, h =>
    match loadBgzfBlock Z h with
    | .ok (bs, d, h2) =>
      let r := decodeAll Z fuel h2
      ((bs, d) :: r.1, r.2)
    | .error .stopIteration => ([], .ok ())
    | .error e => ([], .error e)

/-- `_write_block` succeeds and emits exactly the framed block whenever
the chunk is within bounds and its compressed form fits `BSIZE`. -/
theorem writeBlock_ok (Z : Zlib) (lvl : Nat) (block : Bytes)
    (h1 : block.length ≤ 65536) (h2 : (Z.compress lvl block).length ≤ 65510) :
    writeBlock Z lvl block = .ok (encBlock Z lvl block) := by
  have hm : Z.crc32 block % 4294967296 < 4294967296 := Nat.mod_lt _ (by norm_num)
  simp [writeBlock, u16lePack, u32lePack, encBlock, hm,
    show ¬ 65536 < block.length by omega,
    show ¬ 65536 ≤ (Z.compress lvl block).length by omega,
    show (Z.compress lvl block).length + 25 < 65536 by omega,
    show block.length < 4294967296 by omega]

theorem encBlock_length (Z : Zlib) (lvl : Nat) (block : Bytes) :
    (encBlock Z lvl block).length = (Z.compress lvl block).length + 26 := by
  simp [encBlock, bgzfHeader, u16leBytes, u32leBytes]

theorem writerFull_rem_join (B : Bytes) :
    (writerFull B).flatten ++ writerRem B = B := by
  induction B using writerFull.induct with
  | case1 B h ih =>
    rw [writerFull, writerRem, if_pos h, if_pos h]
    simp only [List.flatten_cons, List.append_assoc, ih]
    exact List.take_append_drop 65536 B
  | case2 B h =>
    rw [writerFull, writerRem, if_neg h, if_neg h]
    simp

theorem writerRem_lt (B : Bytes) : (writerRem B).length < 65536 := by
  induction B using writerRem.induct with
  | case1 B h ih => rw [writerRem, if_pos h]; exact ih
  | case2 B h => rw [writerRem, if_neg h]; omega

theorem writerFull_mem_le (B : Bytes) :
    ∀ c ∈ writerFull B, c.length ≤ 65536 := by
  induction B using writerFull.induct with
  | case1 B h ih =>
    rw [writerFull, if_pos h]
    intro c hc
    rcases List.mem_cons.mp hc with h1 | h1
    · subst h1; simp [List.length_take]
    · exact ih c h1
  | case2 B h =>
    rw [writerFull, if_neg h]
    intro c hc
    simp at hc

theorem writerChunks_mem_le (B : Bytes) :
    ∀ c ∈ writerChunks B, c.length ≤ 65536 := by
  intro c hc
  unfold writerChunks at hc
  rcases List.mem_append.mp hc with h1 | h1
  · exact writerFull_mem_le B c h1
  · by_cases hr : writerRem B = []
    · simp [hr] at h1
    · simp [hr] at h1
      subst h1
      exact le_of_lt (writerRem_lt B)

theorem writerChunks_join (B : Bytes) : (writerChunks B).flatten = B := by
  unfold writerChunks
  by_cases hr : writerRem B = []
  · rw [if_pos hr]
    have := writerFull_rem_join B
    rw [hr] at this
    simpa using this
  · rw [if_neg hr]
    rw [List.flatten_append]
    have := writerFull_rem_join B
    simpa using this

theorem writeLoop_spec (Z : Zlib) (lvl : Nat) : ∀ (n : Nat) (B out : Bytes),
    B.length < n →
    (∀ c ∈ writerFull B, (Z.compress lvl c).length ≤ 65510) →
    writeLoop Z lvl n out B =
      .ok (out ++ ((writerFull B).map (encBlock Z lvl)).flatten, writerRem B) := by
  intro n
  induction n with
  | zero => intro B out h; omega
  | succ n ih =>
    intro B out hlen hfit
    by_cases hb : 65536 ≤ B.length
    · have hmem : B.take 65536 ∈ writerFull B := by
        rw [writerFull, if_pos hb]; exact List.mem_cons_self _ _
      have hw : writeBlock Z lvl (B.take 65536) = .ok (encBlock Z lvl (B.take 65536)) :=
        writeBlock_ok Z lvl _ (by simp [List.length_take]) (hfit _ hmem)
      have hrec := ih (B.drop 65536) (out ++ encBlock Z lvl (B.take 65536))
        (by simp [List.length_drop]; omega)
        (by intro c hc
            apply hfit
            rw [writerFull, if_pos hb]
            exact List.mem_cons_of_mem _ hc)
      rw [show writerFull B = B.take 65536 :: writerFull (B.drop 65536) from by
        rw [writerFull, if_pos hb]]
      rw [show writerRem B = writerRem (B.drop 65536) from by
        rw [writerRem, if_pos hb]]
      simp only [writeLoop, if_pos hb, hw, hrec]
      simp [List.append_assoc]
    · rw [show writerFull B = [] from by rw [writerFull, if_neg hb]]
      rw [show writerRem B = B from by rw [writerRem, if_neg hb]]
      simp only [writeLoop, if_neg hb]
      simp

theorem flushLoop_small (Z : Zlib) (lvl fuel : Nat) (out buffer : Bytes)
    (h : buffer.length < 65536) :
    flushLoop Z lvl (fuel + 1) out buffer = .ok (out, buffer) := by
  simp only [flushLoop, if_neg (by omega : ¬ 65536 ≤ buffer.length)]

theorem writerChunks_nil : writerChunks [] = [] := by
  unfold writerChunks
  rw [show writerRem [] = [] from by rw [writerRem]; simp]
  rw [show writerFull [] = [] from by rw [writerFull]; simp]
  simp

theorem writerChunks_small_ne (B : Bytes) (h : B.length < 65536) (hne : B ≠ []) :
    writerChunks B = [B] := by
  unfold writerChunks
  rw [show writerFull B = [] from by rw [writerFull, if_neg (by omega)]]
  rw [show writerRem B = B from by rw [writerRem, if_neg (by omega)]]
  simp [hne]

theorem writerRun_spec (Z : Zlib) (lvl : Nat) (B : Bytes)
    (hfit : ∀ c ∈ writerChunks B, (Z.compress lvl c).length ≤ 65510) :
    writerRun Z lvl B =
      .ok (((writerChunks B).map (encBlock Z lvl)).flatten ++ bgzfEof) := by
  unfold writerRun
  by_cases hb : B.length < 65536
  · have hwrite : BgzfWriter.write Z ⟨[], [], lvl⟩ B = .ok ⟨[], B, lvl⟩ := by
      simp [BgzfWriter.write, hb]
    by_cases hB : B = []
    · subst hB
      have hclose : BgzfWriter.close Z ⟨[], [], lvl⟩ = .ok ⟨bgzfEof, [], lvl⟩ := by
        simp [BgzfWriter.close]
      simp only [hwrite, hclose, writerChunks_nil]
      simp
    · have hwb : writeBlock Z lvl B = .ok (encBlock Z lvl B) :=
        writeBlock_ok Z lvl B (by omega)
          (hfit B (by rw [writerChunks_small_ne B hb hB]; simp))
      have hfl : flushLoop Z lvl (B.length + 1) [] B = .ok ([], B) :=
        flushLoop_small Z lvl B.length [] B hb
      have hflush : BgzfWriter.flush Z ⟨[], B, lvl⟩ = .ok ⟨encBlock Z lvl B, [], lvl⟩ := by
        simp [BgzfWriter.flush, hfl, hwb]
      have hclose : BgzfWriter.close Z ⟨[], B, lvl⟩ =
          .ok ⟨encBlock Z lvl B ++ bgzfEof, [], lvl⟩ := by
        simp [BgzfWriter.close, hB, hflush]
      simp only [hwrite, hclose]
      rw [writerChunks_small_ne B hb hB]
      simp
  · have hfitF : ∀ c ∈ writerFull B, (Z.compress lvl c).length ≤ 65510 := by
      intro c hc
      exact hfit c (List.mem_append_left _ hc)
    have hwl := writeLoop_spec Z lvl (B.length + 1) B [] (by omega) hfitF
    have hwrite : BgzfWriter.write Z ⟨[], [], lvl⟩ B =
        .ok ⟨((writerFull B).map (encBlock Z lvl)).flatten, writerRem B, lvl⟩ := by
      simp only [BgzfWriter.write]
      simp [hb, hwl]
    by_cases hr : writerRem B = []
    · have hclose : BgzfWriter.close Z
          ⟨((writerFull B).map (encBlock Z lvl)).flatten, writerRem B, lvl⟩ =
          .ok ⟨((writerFull B).map (encBlock Z lvl)).flatten ++ bgzfEof, writerRem B, lvl⟩ := by
        simp [BgzfWriter.close, hr]
      simp only [hwrite, hclose]
      unfold writerChunks
      rw [if_pos hr]
      simp
    · have hwbr : writeBlock Z lvl (writerRem B) = .ok (encBlock Z lvl (writerRem B)) :=
        writeBlock_ok Z lvl _ (le_of_lt (writerRem_lt B))
          (hfit _ (by unfold writerChunks; rw [if_neg hr]
                      exact List.mem_append_right _ (by simp)))
      have hfl := flushLoop_small Z lvl (writerRem B).length
        (((writerFull B).map (encBlock Z lvl)).flatten) (writerRem B) (writerRem_lt B)
      have hflush : BgzfWriter.flush Z
          ⟨((writerFull B).map (encBlock Z lvl)).flatten, writerRem B, lvl⟩ =
          .ok ⟨((writerFull B).map (encBlock Z lvl)).flatten ++ encBlock Z lvl (writerRem B),
            [], lvl⟩ := by
        simp [BgzfWriter.flush, hfl, hwbr]
      have hclose : BgzfWriter.close Z
          ⟨((writerFull B).map (encBlock Z lvl)).flatten, writerRem B, lvl⟩ =
          .ok ⟨((writerFull B).map (encBlock Z lvl)).flatten ++ encBlock Z lvl (writerRem B) ++
            bgzfEof, [], lvl⟩ := by
        simp [BgzfWriter.close, hr, hflush]
      simp only [hwrite, hclose]
      unfold writerChunks
      rw [if_neg hr]
      simp [List.append_assoc]

theorem loadBgzfBlock_eof (Z : Zlib) (D : Bytes) (p : Nat) (md : String)
    (h : D.drop p = []) :
    loadBgzfBlock Z ⟨D, p, md⟩ = .error .stopIteration := by
  unfold loadBgzfBlock Handle.read
  simp [h]

theorem decodeAll_step (Z : Zlib) (fuel : Nat) (h : Handle) (bs : Nat) (d : Bytes)
    (h2 : Handle) (hl : loadBgzfBlock Z h = .ok (bs, d, h2)) :
    decodeAll Z (fuel + 1) h =
      ((bs, d) :: (decodeAll Z fuel h2).1, (decodeAll Z fuel h2).2) := by
  show (match loadBgzfBlock Z h with
    | .ok (bs, d, h2) => ((bs, d) :: (decodeAll Z fuel h2).1, (decodeAll Z fuel h2).2)
    | .error .stopIteration => ([], Except.ok ())
    | .error e => ([], .error e)) =
    ((bs, d) :: (decodeAll Z fuel h2).1, (decodeAll Z fuel h2).2)
  rw [hl]

theorem decodeAll_stop (Z : Zlib) (fuel : Nat) (h : Handle)
    (hl : loadBgzfBlock Z h = .error .stopIteration) :
    decodeAll Z (fuel + 1) h = ([], .ok ()) := by
  show (match loadBgzfBlock Z h with
    | .ok (bs, d, h2) => ((bs, d) :: (decodeAll Z fuel h2).1, (decodeAll Z fuel h2).2)
    | .error .stopIteration => ([], Except.ok ())
    | .error e => ([], .error e)) = ([], Except.ok ())
  rw [hl]

theorem decodeAll_enc (Z : Zlib) (lvl : Nat)
    (h30 : Z.decompress [3, 0] = []) (hc0 : Z.crc32 [] = 0) :
    ∀ (chunks : List Bytes) (D : Bytes) (pos : Nat) (md : String),
    (∀ c ∈ chunks, (Z.compress lvl c).length ≤ 65510) →
    (∀ c ∈ chunks, c.length < 4294967296) →
    (∀ c ∈ chunks, Z.decompress (Z.compress lvl c) = c) →
    D.drop pos = (chunks.map (encBlock Z lvl)).flatten ++ bgzfEof →
    decodeAll Z (chunks.length + 2) ⟨D, pos, md⟩ =
      (chunks.map (fun c => ((Z.compress lvl c).length + 26, c)) ++ [(28, [])],
        .ok ()) := by
  intro chunks
  induction chunks with
  | nil =>
    intro D pos md _ _ _ hD
    simp only [List.map_nil, List.flatten_nil, List.nil_append] at hD
    have hD2 : D.drop pos = bgzfHeader ++ u16leBytes (([3, 0] : Bytes).length + 25) ++
        [3, 0] ++ u32leBytes (Z.crc32 ([] : Bytes) % 4294967296) ++
        u32leBytes ([] : Bytes).length ++ [] := by
      rw [hD]
      simp [bgzfEof, bgzfHeader, u16leBytes, u32leBytes, hc0]
    have hl := loadBgzfBlock_frame Z D pos md [3, 0] [] [] hD2 (by norm_num) h30
      (by norm_num)
    norm_num at hl
    have hdrop : D.drop (pos + 28) = [] := by
      have h1 : D.drop (pos + 28) = (D.drop pos).drop 28 := by rw [List.drop_drop]
      rw [h1, hD]
      simp [bgzfEof]
    have heof := loadBgzfBlock_eof Z D (pos + 28) md hdrop
    have hf2 : (([] : List Bytes)).length + 2 = 0 + 1 + 1 := by simp
    rw [hf2, decodeAll_step Z (0 + 1) _ _ _ _ hl, decodeAll_stop Z 0 _ heof]
    simp
  | cons c cs ih =>
    intro D pos md hfit hlen hrt hD
    have hD0 : D.drop pos = bgzfHeader ++ u16leBytes ((Z.compress lvl c).length + 25) ++
        Z.compress lvl c ++ u32leBytes (Z.crc32 c % 4294967296) ++
        u32leBytes c.length ++ ((cs.map (encBlock Z lvl)).flatten ++ bgzfEof) := by
      rw [hD]
      simp [encBlock, List.append_assoc]
    have hl := loadBgzfBlock_frame Z D pos md (Z.compress lvl c) c _ hD0
      (hfit c (by simp)) (hrt c (by simp)) (hlen c (by simp))
    have hdrop : D.drop (pos + ((Z.compress lvl c).length + 26)) =
        (cs.map (encBlock Z lvl)).flatten ++ bgzfEof := by
      have h1 : D.drop (pos + ((Z.compress lvl c).length + 26)) =
          (D.drop pos).drop ((Z.compress lvl c).length + 26) := by rw [List.drop_drop]
      have h2 : D.drop pos =
          encBlock Z lvl c ++ ((cs.map (encBlock Z lvl)).flatten ++ bgzfEof) := by
        rw [hD]
        simp [List.append_assoc]
      rw [h1, h2, List.drop_left' (encBlock_length Z lvl c)]
    have hrec := ih D (pos + ((Z.compress lvl c).length + 26)) md
      (fun x hx => hfit x (by simp [hx])) (fun x hx => hlen x (by simp [hx]))
      (fun x hx => hrt x (by simp [hx])) hdrop
    have hfuel : (c :: cs).length + 2 = (cs.length + 2) + 1 := by simp
    rw [hfuel, decodeAll_step Z (cs.length + 2) _ _ _ _ hl, hrec]
    simp

/-- C1: feeding any byte sequence `B` to a fresh Writer and closing
produces a byte stream on which repeated block decoding yields the
writer's chunks (whose concatenation is exactly `B`) followed by a
terminal block of 28 raw bytes carrying zero uncompressed bytes, the
stream ending in the literal 28-byte EOF sentinel; writing the empty
sequence produces exactly the 28 sentinel bytes.  The hypotheses state
the relevant facts about the external raw-DEFLATE codec: decompression
inverts compression, the sentinel's stored payload `03 00` inflates to
nothing, the CRC-32 of the empty string is zero, and each emitted
chunk's compressed form fits the 16-bit BSIZE field. -/
theorem C1_writer_roundtrip (Z : Zlib) (lvl : Nat) (B : Bytes)
    (hrt : ∀ d : Bytes, Z.decompress (Z.compress lvl d) = d)
    (h30 : Z.decompress [3, 0] = [])
    (hc0 : Z.crc32 [] = 0)
    (hfit : ∀ c ∈ writerChunks B, (Z.compress lvl c).length ≤ 65510) :
    ∃ out : Bytes, writerRun Z lvl B = .ok out ∧
      out = ((writerChunks B).map (encBlock Z lvl)).flatten ++ bgzfEof ∧
      decodeAll Z ((writerChunks B).length + 2) ⟨out, 0, "rb"⟩ =
        ((writerChunks B).map (fun c => ((Z.compress lvl c).length + 26, c)) ++
          [(28, [])], .ok ()) ∧
      (((writerChunks B).map (fun c => ((Z.compress lvl c).length + 26, c)) ++
          [(28, [])]).map Prod.snd).flatten = B ∧
      (B = [] → out = bgzfEof) := by
  refine ⟨_, writerRun_spec Z lvl B hfit, rfl, ?_, ?_, ?_⟩
  · exact decodeAll_enc Z lvl h30 hc0 (writerChunks B) _ 0 "rb" hfit
      (fun c hc => by have := writerChunks_mem_le B c hc; omega)
      (fun c _ => hrt c)
      (by rw [List.drop_zero])
  · rw [List.map_append, List.map_map]
    have hcomp : (Prod.snd ∘ fun c : Bytes => ((Z.compress lvl c).length + 26, c)) =
        fun c : Bytes => c := by
      funext x
      rfl
    rw [hcomp]
    simp [List.flatten_append, writerChunks_join]
  · intro hB
    subst hB
    rw [writerChunks_nil]
    simp

/-- A concrete executable instance of the `Zlib` interface, used by the
witnesses: compression appends the two-byte terminator `03 00` (so the
compressed form of an empty chunk is exactly the EOF sentinel's stored
payload, as with real zlib), decompression drops the final two bytes,
and the checksum is a byte sum reduced modulo `2^32` (zero on the empty
string, like CRC-32). -/
def wZlib : Zlib where
  compress := fun _ d => d ++ [3, 0]
  decompress := fun b => b.take (b.length - 2)
  crc32 := fun d => d.foldl (fun a b => (a + b) % 4294967296) 0

/-- The witness codec round-trips. -/
theorem wZlib_rt (lvl : Nat) (d : Bytes) :
    wZlib.decompress (wZlib.compress lvl d) = d := by
  show (d ++ [3, 0]).take ((d ++ [3, 0]).length - 2) = d
  have h : (d ++ [3, 0]).length - 2 = d.length := by simp
  rw [h, List.take_left' rfl]

/-- C7: for an input block of at most 65536 bytes, `_write_block` fails
(emitting nothing, since the Python writes the sink once at the end)
exactly when the deflate output `C` would overflow the BSIZE field,
i.e. when `len(C) + 26 > 65536`; otherwise it emits a block of exactly
`len(C) + 26 ≤ 65536` bytes. -/
theorem C7_writeBlock_bounds (Z : Zlib) (lvl : Nat) (block : Bytes)
    (h : block.length ≤ 65536) :
    (65536 < (Z.compress lvl block).length + 26 →
      ∃ e, writeBlock Z lvl block = .error e) ∧
    ((Z.compress lvl block).length + 26 ≤ 65536 →
      writeBlock Z lvl block = .ok (encBlock Z lvl block) ∧
      (encBlock Z lvl block).length = (Z.compress lvl block).length + 26 ∧
      (encBlock Z lvl block).length ≤ 65536) := by
  constructor
  · intro hbig
    by_cases hc : 65536 ≤ (Z.compress lvl block).length
    · refine ⟨.assertionError, ?_⟩
      simp [writeBlock, show ¬ 65536 < block.length by omega, hc]
    · refine ⟨.structError, ?_⟩
      simp [writeBlock, u16lePack, show ¬ 65536 < block.length by omega, hc,
        show ¬ (Z.compress lvl block).length + 25 < 65536 by omega]
  · intro hfits
    exact ⟨writeBlock_ok Z lvl block h (by omega), encBlock_length Z lvl block,
      by rw [encBlock_length]; omega⟩

/-- Witness for C7 at a concrete block. -/
theorem C7_writeBlock_bounds_witness :
    writeBlock wZlib 6 [65] = .ok (encBlock wZlib 6 [65]) ∧
    (encBlock wZlib 6 [65]).length = (wZlib.compress 6 [65]).length + 26 := by
  have h := (C7_writeBlock_bounds wZlib 6 [65] (by norm_num)).2 (by decide)
  exact ⟨h.1, h.2.1⟩

/-- Witness for C1 on the concrete input `"HI"` with the executable
codec. -/
theorem C1_writer_roundtrip_witness :
    ∃ out : Bytes, writerRun wZlib 6 [72, 73] = .ok out ∧
      out = ((writerChunks [72, 73]).map (encBlock wZlib 6)).flatten ++ bgzfEof ∧
      decodeAll wZlib ((writerChunks [72, 73]).length + 2) ⟨out, 0, "rb"⟩ =
        ((writerChunks [72, 73]).map
          (fun c => ((wZlib.compress 6 c).length + 26, c)) ++ [(28, [])], .ok ()) ∧
      (((writerChunks [72, 73]).map
          (fun c => ((wZlib.compress 6 c).length + 26, c)) ++
          [(28, [])]).map Prod.snd).flatten = [72, 73] ∧
      ([72, 73] = ([] : Bytes) → out = bgzfEof) :=
  C1_writer_roundtrip wZlib 6 [72, 73] (wZlib_rt 6) rfl rfl (by
    intro c hc
    rw [writerChunks_small_ne [72, 73] (by norm_num) (by simp)] at hc
    simp at hc
    subst hc
    decide)

/-- Python `c in s.lower()` for a single character. -/
def lowerHasChar (s : String) (c : Char) : Bool :=
  (s.data.map Char.toLower).contains c

/-- `BgzfReader` state (bgzf.py lines 474-501): the underlying handle,
text flag, cache bound, block cache (`self._buffers`, keyed by block
start offset; modelled as an association list in insertion order),
current block start offset and raw length (`None` until a block is
loaded), the decompressed buffer, and the intra-block cursor. -/
structure BgzfReader where
  handle : Handle
  textMode : Bool
  maxCache : Nat
  cache : List (Nat × Bytes × Nat)
  blockStart : Option Nat
  rawLength : Option Nat
  buffer : Bytes
  within : Nat
deriving DecidableEq, Repr

/-- `start_offset in self._buffers` / `self._buffers[start_offset]`. -/
def cacheLookup : List (Nat × Bytes × Nat) → Nat → Option (Bytes × Nat)
  | [], _ => none
  | (k, v) :: rest, key => if k = key then some v else cacheLookup rest key

/-- The `while len(self._buffers) >= self.max_cache: popitem()` loop of
`_load_block` (bgzf.py lines 519-521).  CPython-2 `dict.popitem` removes
an arbitrary entry; the model removes the oldest.  Fuel
`cache.length + 1` suffices since each iteration removes one entry
(`max_cache` is at least 1 for every constructed reader). -/
def cacheEvict : Nat → List (Nat × Bytes × Nat) → Nat → List (Nat × Bytes × Nat)
  | 0, c, _ => c
  | fuel + 1, c, maxCache =>
    if maxCache ≤ c.length then cacheEvict fuel (c.drop 1) maxCache else c

/-- `BgzfReader._load_block(start_offset)` (bgzf.py lines 503-539).
With no argument (`none`) the next sequential offset
`block_start + block_raw_length` is used (`TypeError` if those are still
`None`, as in Python).  Loading is skipped when the block is current or
cached; otherwise the handle seeks to the start, one block is parsed,
and a clean end of stream becomes an empty buffer with raw length 0.
The block is then cached. -/
def loadBlock (Z : Zlib) (r : BgzfReader) (startOffset : Option Nat) :
    Except PyErr BgzfReader :=
  match (match startOffset with
         | some s => Except.ok s
         | none =>
           match r.blockStart, r.rawLength with
           | some bs, some rl => Except.ok (bs + rl)
           | _, _ => (Except.error PyErr.typeError : Except PyErr Nat)) with
  | .error e => .error e
  | .ok start =>
    if some start = r.blockStart then .ok { r with within := 0 }
    else
      match cacheLookup r.cache start with
      | some (buf, blen) =>
        .ok { r with
          buffer := buf, rawLength := some blen, within := 0,
          blockStart := some start }
      | none =>
        let cache := cacheEvict (r.cache.length + 1) r.cache r.maxCache
        let h := r.handle.seek start
        match loadBgzfBlock Z h with
        | .ok (blockSize, data, h2) =>
          .ok { r with
            handle := h2, cache := cache ++ [(h.tell, data, blockSize)],
            blockStart := some h.tell, rawLength := some blockSize,
            buffer := data, within := 0 }
        | .error .stopIteration =>
          .ok { r with
            handle := h, cache := cache ++ [(h.tell, [], 0)],
            blockStart := some h.tell, rawLength := some 0,
            buffer := [], within := 0 }
        | .error e => .error e

/-- `BgzfReader.tell()` (bgzf.py lines 541-554): at the end of a
non-empty block, report the next block's virtual offset with
intra-block offset zero; otherwise `(block_start << 16) | within`.
An unloaded state (`None` fields) would raise `TypeError` in Python. -/
def BgzfReader.tell (r : BgzfReader) : Except PyErr Nat :=
  if 0 < r.within ∧ r.within = r.buffer.length then
    match r.blockStart, r.rawLength with
    | some bs, some rl => .ok ((bs + rl) <<< 16)
    | _, _ => .error .typeError
  else
    match r.blockStart with
    | some bs => .ok ((bs <<< 16) ||| r.within)
    | none => .error .typeError

/-- `BgzfReader.read(size)` (bgzf.py lines 578-606).  Negative sizes are
rejected (`NotImplementedError`); zero returns empty; a request within
the current buffer is served lazily from it; otherwise the rest of the
buffer is taken, the next block is loaded, and an empty loaded buffer
ends the read (short read), else reading recurses for the remainder.
The source recursion is modelled with explicit fuel. -/
def bgzfRead (Z : Zlib) : Nat → BgzfReader → Int → Except PyErr (Bytes × BgzfReader)
  | 0, _, _ => .error .outOfFuel
  | fuel + 1, r, size =>
    if size < 0 then .error .notImplementedError
    else if size = 0 then .ok ([], r)
    else
      let n := size.toNat
      if r.within + n ≤ r.buffer.length then
        let data := (r.buffer.take (r.within + n)).drop r.within
        if data = [] then .error .assertionError
        else .ok (data, { r with within := r.within + n })
      else
        let data := r.buffer.drop r.within
        let size2 := n - data.length
        match loadBlock Z r none with
        | .error e => .error e
        | .ok r2 =>
          if r2.buffer = [] then .ok (data, r2)
          else if size2 ≠ 0 then
            match bgzfRead Z fuel r2 (size2 : Int) with
            | .error e => .error e
            | .ok (d2, r3) => .ok (data ++ d2, r3)
          else .ok (data, r2)

/-- `BgzfReader.seek(virtual_offset)` (bgzf.py lines 556-576): split the
offset inline, load the target block unless current, assert the load
landed on it, bounds-check the within-block offset (`ValueError`, the
spec's `RangeError`, if `within >= len(buffer)` except for the
`(0, empty)` EOF-block case), set the cursor and return the offset. -/
def bgzfSeek (Z : Zlib) (r : BgzfReader) (virtualOffset : Nat) :
    Except PyErr (Nat × BgzfReader) :=
  let start := virtualOffset >>> 16
  let withinBlock := virtualOffset ^^^ (start <<< 16)
  let loaded : Except PyErr BgzfReader :=
    if some start ≠ r.blockStart then
      match loadBlock Z r (some start) with
      | .error e => .error e
      | .ok r2 =>
        if some start = r2.blockStart then .ok r2
        else .error .assertionError
    else .ok r
  match loaded with
  | .error e => .error e
  | .ok r2 =>
    if r2.buffer.length ≤ withinBlock ∧
        ¬(withinBlock = 0 ∧ r2.buffer.length = 0) then
      .error .valueError
    else .ok (virtualOffset, { r2 with within := withinBlock })

/-- `BgzfReader.__init__(filename, mode, fileobj, max_cache)`
(bgzf.py lines 474-501).  `fileData` is the contents of the file that
`__builtin__.open(filename, "rb")` would return.  With a `fileobj`, the
source first asserts `filename is None and mode is None`
(`AssertionError` otherwise, in particular with the default
`mode="r"`), asserts `"b" in handle.mode.lower()`, and then evaluates
`"b" not in mode.lower()` on `mode = None` — an unconditional
`AttributeError`.  With a filename, write/append modes are rejected,
the file is opened at position 0 and the block there is loaded. -/
def readerInit (Z : Zlib) (filename : Option String) (mode : Option String)
    (fileobj : Option Handle) (fileData : Bytes) (maxCache : Nat) :
    Except PyErr BgzfReader :=
  if maxCache < 1 then .error .valueError
  else
    match fileobj with
    | some f =>
      if filename = none ∧ mode = none then
        if lowerHasChar f.fmode 'b' then .error .attributeError
        else .error .assertionError
      else .error .assertionError
    | none =>
      match mode with
      | none => .error .attributeError
      | some m =>
        if lowerHasChar m 'w' ∨ lowerHasChar m 'a' then .error .valueError
        else
          let handle : Handle := ⟨fileData, 0, "rb"⟩
          let r : BgzfReader :=
            ⟨handle, !lowerHasChar m 'b', maxCache, [], none, none, [], 0⟩
          loadBlock Z r (some handle.tell)

/-- `BgzfWriter.tell()` (bgzf.py lines 736-738) evaluates
`self.handle.tell()`, but `__init__` only ever sets `self._handle`
(with the underscore), so in Python every call raises
`AttributeError` before reaching `make_virtual_offset`. -/
def BgzfWriter.tell (_w : BgzfWriter) : Except PyErr Nat :=
  .error .attributeError

/-- C2: for every Reader state with a loaded block, `tell()` returns
`(block_start + block_raw_length) << 16` when `within_block > 0` equals
the buffer length, and `(block_start << 16) | within_block` otherwise;
in particular a `read` that consumes exactly to the end of a non-empty
block stays in the lazy in-buffer branch and the subsequent `tell()` is
the canonical next-block virtual offset with intra-block offset 0. -/
theorem C2_reader_tell (r : BgzfReader) (bs rl : Nat)
    (h1 : r.blockStart = some bs) (h2 : r.rawLength = some rl) :
    BgzfReader.tell r =
      .ok (if 0 < r.within ∧ r.within = r.buffer.length then (bs + rl) <<< 16
        else (bs <<< 16) ||| r.within) ∧
    (∀ (Z : Zlib) (fuel n : Nat), 0 < n → r.within + n = r.buffer.length →
      bgzfRead Z (fuel + 1) r (n : Int) =
        .ok (r.buffer.drop r.within, { r with within := r.within + n }) ∧
      BgzfReader.tell { r with within := r.within + n } =
        .ok ((bs + rl) <<< 16)) := by
  constructor
  · unfold BgzfReader.tell
    by_cases hc : 0 < r.within ∧ r.within = r.buffer.length
    · rw [if_pos hc, if_pos hc, h1, h2]
    · rw [if_neg hc, if_neg hc, h1]
  · intro Z fuel n hn hend
    have hnn : ¬ ((n : Int) < 0) := by omega
    have hn0 : ¬ ((n : Int) = 0) := by
      intro h
      omega
    have htn : ((n : Int)).toNat = n := Int.toNat_natCast n
    have hle : r.within + n ≤ r.buffer.length := by omega
    have hdata : (r.buffer.take (r.within + n)).drop r.within = r.buffer.drop r.within := by
      rw [hend, List.take_length]
    have hne : r.buffer.drop r.within ≠ [] := by
      intro hempty
      have := congrArg List.length hempty
      simp [List.length_drop] at this
      omega
    constructor
    · simp only [bgzfRead, if_neg hnn, if_neg hn0, htn, if_pos hle, hdata, if_neg hne]
    · simp only [BgzfReader.tell]
      rw [if_pos (show 0 < r.within + n ∧ r.within + n =
        ({ r with within := r.within + n } : BgzfReader).buffer.length from ⟨by omega, hend⟩)]
      rw [show ({ r with within := r.within + n } : BgzfReader).blockStart = some bs from h1,
        show ({ r with within := r.within + n } : BgzfReader).rawLength = some rl from h2]

def rC2 : BgzfReader := ⟨⟨[], 0, "rb"⟩, false, 100, [], some 5, some 28, [65, 66], 0⟩

theorem C2_reader_tell_witness :
    bgzfRead wZlib 1 rC2 2 = .ok ([65, 66], { rC2 with within := 2 }) ∧
    BgzfReader.tell { rC2 with within := 2 } = .ok ((5 + 28) <<< 16) :=
  (C2_reader_tell rC2 5 28 rfl rfl).2 wZlib 0 2 (by norm_num) (by decide)

/-- C3 (amended): with the block at `coff` loaded (state `r1`),
`seek(v)` succeeds, sets `within_block = uoff` and returns `v` whenever
`uoff < len(buffer)`, or `uoff = 0` with an empty buffer (the EOF
block); it fails with `ValueError` (the spec's `RangeError`) exactly
when `uoff ≥ len(buffer)` and that special case does not apply.  The
claim's boundary case `uoff = len(buffer) > 0` is rejected by the code —
see the counterexample. -/
theorem C3_seek_amended (Z : Zlib) (r r1 : BgzfReader) (v : Nat)
    (hload : ((if some ((split_virtual_offset v).1) ≠ r.blockStart then
        match loadBlock Z r (some ((split_virtual_offset v).1)) with
        | .error e => .error e
        | .ok r2 =>
          if some ((split_virtual_offset v).1) = r2.blockStart then .ok r2
          else .error .assertionError
      else .ok r : Except PyErr BgzfReader)) = .ok r1) :
    (((split_virtual_offset v).2 < r1.buffer.length ∨
        ((split_virtual_offset v).2 = 0 ∧ r1.buffer = [])) →
      bgzfSeek Z r v = .ok (v, { r1 with within := (split_virtual_offset v).2 })) ∧
    ((r1.buffer.length ≤ (split_virtual_offset v).2 ∧
        ¬((split_virtual_offset v).2 = 0 ∧ r1.buffer.length = 0)) →
      bgzfSeek Z r v = .error .valueError) := by
  have hs1 : (split_virtual_offset v).1 = v >>> 16 := rfl
  have hs2 : (split_virtual_offset v).2 = v ^^^ ((v >>> 16) <<< 16) := rfl
  rw [hs1] at hload
  unfold bgzfSeek
  simp only [hload]
  constructor
  · intro hcond
    rw [if_neg ?_]
    · rfl
    · intro hbad
      rcases hcond with h | ⟨h0, hbuf⟩
      · rw [hs2] at h
        omega
      · rw [hs2] at h0
        rw [hbuf] at hbad
        simp [h0] at hbad
  · intro hcond
    rw [hs2] at hcond
    rw [if_pos hcond]

def cxData : Bytes := encBlock wZlib 6 [65, 66, 67] ++ bgzfEof

/-- C3 counterexample: on a stream whose first block holds the 3 bytes
`ABC`, the claim says `seek(make(0, 3))` (within-block offset equal to
the buffer length) succeeds, but the code raises `ValueError`. -/
theorem C3_seek_counterexample :
    ((match readerInit wZlib (some "f") (some "r") none cxData 100 with
      | .error e => .error e
      | .ok r => bgzfSeek wZlib r 3 : Except PyErr (Nat × BgzfReader))) =
      .error .valueError := by
  rfl

def rC3 : BgzfReader :=
  ⟨⟨cxData, 31, "rb"⟩, true, 100, [(0, [65, 66, 67], 31)], some 0, some 31,
    [65, 66, 67], 0⟩

theorem C3_seek_amended_witness :
    bgzfSeek wZlib rC3 1 = .ok (1, { rC3 with within := (split_virtual_offset 1).2 }) :=
  (C3_seek_amended wZlib rC3 rC3 1 (by rfl)).1 (by decide)

/-- C4 (amended): a `read(n)` that exhausts the current block consumes
the remainder of the buffer and loads the next block, and when the
loaded block is empty — whether it is the terminal end-of-stream block
or an empty non-terminal block — it returns the accumulated bytes as a
short read.  A short result therefore occurs at any empty loaded block,
not only at true end of stream: the code does not continue past an
empty non-terminal block (see the counterexample). -/
theorem C4_read_amended (Z : Zlib) (fuel : Nat) (r r2 : BgzfReader) (n : Nat)
    (hn : r.buffer.length - r.within < n)
    (hwithin : r.within ≤ r.buffer.length)
    (hload : loadBlock Z r none = .ok r2)
    (hempty : r2.buffer = []) :
    bgzfRead Z (fuel + 1) r (n : Int) = .ok (r.buffer.drop r.within, r2) := by
  have hn0 : 0 < n := by omega
  have hnn : ¬ ((n : Int) < 0) := by omega
  have hz : ¬ ((n : Int) = 0) := by
    intro h
    omega
  have htn : ((n : Int)).toNat = n := Int.toNat_natCast n
  have hgt : ¬ (r.within + n ≤ r.buffer.length) := by omega
  simp only [bgzfRead, if_neg hnn, if_neg hz, htn, if_neg hgt, hload, hempty, if_true]

def cx4Data : Bytes :=
  encBlock wZlib 6 [65, 66, 67] ++ encBlock wZlib 6 [] ++
    encBlock wZlib 6 [68, 69, 70] ++ bgzfEof

/-- C4 counterexample: a stream of a 3-byte block, an empty non-terminal
block, a second 3-byte block, and the sentinel.  `read(6)` returns only
the first 3 bytes (a short read that is not at true end of stream), and
a further `read(3)` returns 3 more bytes. -/
theorem C4_read_counterexample :
    ((match readerInit wZlib (some "f") (some "r") none cx4Data 100 with
      | .error e => .error e
      | .ok r =>
        match bgzfRead wZlib 5 r 6 with
        | .error e => .error e
        | .ok (d1, r2) =>
          match bgzfRead wZlib 5 r2 3 with
          | .error e => .error e
          | .ok (d2, _) => .ok (d1, d2) : Except PyErr (Bytes × Bytes))) =
      .ok ([65, 66, 67], [68, 69, 70]) := by
  rfl

def rC4 : BgzfReader :=
  ⟨⟨0 :: bgzfEof, 1, "rb"⟩, true, 100, [], some 0, some 1, [65, 66, 67], 0⟩

def rC4x : BgzfReader :=
  ⟨⟨0 :: bgzfEof, 29, "rb"⟩, true, 100, [(1, [], 28)], some 1, some 28, [], 0⟩

theorem C4_read_amended_witness :
    bgzfRead wZlib 5 rC4 6 = .ok ([65, 66, 67], rC4x) :=
  C4_read_amended wZlib 4 rC4 rC4x 6 (by decide) (by decide) (by rfl) rfl

/-- C8 (code bug): every call of the Writer's `tell()` raises
`AttributeError`, because line 738 reads `self.handle` while the
constructor only sets `self._handle`; the claimed
`make_virtual_offset(handle.tell(), len(buffer))` is never computed. -/
theorem C8_writer_tell_bug (w : BgzfWriter) :
    BgzfWriter.tell w = .error .attributeError := rfl

/-- C9 (code bug): constructing a Reader from a pre-opened `fileobj`
never succeeds.  With the default `mode="r"` (or any non-`None` mode)
the assert `filename is None and mode is None` fails; with the
`mode=None` required by that assert, the subsequent
`"b" not in mode.lower()` raises `AttributeError`.  The claim that
construction succeeds and loads the block at the source's position is
therefore unsatisfiable in the code. -/
theorem C9_reader_fileobj_always_fails (Z : Zlib) (f : Handle) (fileData : Bytes)
    (mc : Nat) (filename mode : Option String) (hmc : 1 ≤ mc) :
    readerInit Z filename mode (some f) fileData mc =
      .error (if filename = none ∧ mode = none then
          (if lowerHasChar f.fmode 'b' then PyErr.attributeError
           else PyErr.assertionError)
        else PyErr.assertionError) ∧
    ∀ r : BgzfReader, readerInit Z filename mode (some f) fileData mc ≠ .ok r := by
  have h1 : readerInit Z filename mode (some f) fileData mc =
      .error (if filename = none ∧ mode = none then
          (if lowerHasChar f.fmode 'b' then PyErr.attributeError
           else PyErr.assertionError)
        else PyErr.assertionError) := by
    unfold readerInit
    rw [if_neg (by omega)]
    show (if filename = none ∧ mode = none then
        (if lowerHasChar f.fmode 'b' then Except.error PyErr.attributeError
         else Except.error PyErr.assertionError)
      else Except.error PyErr.assertionError : Except PyErr BgzfReader) = _
    split_ifs <;> rfl
  refine ⟨h1, ?_⟩
  intro r hr
  rw [h1] at hr
  simp at hr

theorem C9_reader_fileobj_always_fails_witness :
    readerInit wZlib none none (some ⟨[], 0, "rb"⟩) [] 100 =
      .error .attributeError := by
  have h := (C9_reader_fileobj_always_fails wZlib ⟨[], 0, "rb"⟩ [] 100 none none
    (by norm_num)).1
  have hb : lowerHasChar "rb" 'b' = true := by decide
  simpa [hb] using h

/-- C10: constructing a Reader (by filename) on an empty byte source
succeeds: the end-of-stream signal becomes an empty buffer with
`block_raw_length = 0` and `block_start = 0` (the source position),
`tell()` returns 0, and `read(n)` returns empty for every `n ≥ 0`
without error — one fuel step suffices, so no looping occurs (the
sequential reload resolves to the already-current offset `0 + 0`). -/
theorem C10_reader_empty_source (Z : Zlib) (mc : Nat) (fn : String) (hmc : 1 ≤ mc) :
    ∃ r : BgzfReader, readerInit Z (some fn) (some "r") none [] mc = .ok r ∧
      r.blockStart = some 0 ∧ r.rawLength = some 0 ∧ r.buffer = [] ∧ r.within = 0 ∧
      r.handle.pos = 0 ∧
      BgzfReader.tell r = .ok 0 ∧
      (∀ n : Nat, bgzfRead Z 1 r (n : Int) = .ok ([], r)) := by
  have hw : lowerHasChar "r" 'w' = false := by decide
  have ha : lowerHasChar "r" 'a' = false := by decide
  refine ⟨⟨⟨[], 0, "rb"⟩, !lowerHasChar "r" 'b', mc, [(0, [], 0)], some 0, some 0,
    [], 0⟩, ?_, rfl, rfl, rfl, rfl, rfl, ?_, ?_⟩
  · unfold readerInit
    rw [if_neg (by omega)]
    simp only [hw, ha]
    unfold loadBlock
    simp only [cacheLookup]
    have hde : cacheEvict (0 + 1) [] mc = [] := by
      unfold cacheEvict
      rw [if_neg (by simp; omega)]
    unfold loadBgzfBlock Handle.read Handle.seek Handle.tell
    simp [hde]
  · simp [BgzfReader.tell]
  · intro n
    by_cases hn : n = 0
    · subst hn
      simp [bgzfRead]
    · have hnn : ¬ ((n : Int) < 0) := by omega
      have hz : ¬ ((n : Int) = 0) := by
        intro h
        omega
      have htn : ((n : Int)).toNat = n := Int.toNat_natCast n
      simp only [bgzfRead, if_neg hnn, if_neg hz, htn]
      rw [if_neg (by simp; omega)]
      simp [loadBlock]

theorem C10_reader_empty_source_witness :
    ∃ r : BgzfReader, readerInit wZlib (some "f") (some "r") none [] 100 = .ok r ∧
      r.blockStart = some 0 ∧ r.rawLength = some 0 ∧ r.buffer = [] ∧ r.within = 0 ∧
      r.handle.pos = 0 ∧
      BgzfReader.tell r = .ok 0 ∧
      (∀ n : Nat, bgzfRead wZlib 1 r (n : Int) = .ok ([], r)) :=
  C10_reader_empty_source wZlib 100 "f" (by norm_num)
